import Mathlib

/-!
# Verification of the gnosis-query search orchestration pipeline

Shallow embedding of `src/app.py` (`SearchResource.get`): the search
endpoint that scopes the content of a user, maps chunks to embedding ids,
calls the external similarity scorer, and assembles ranked results.

The database is modelled as in-memory lists of rows (`Content`,
`ContentChunk`); the external scorer is a function from the request
data (query text, candidate embedding ids, limit) to a reply.
Python `dict` construction (insertion order, later value wins on a
duplicate key) is modelled explicitly by `dictInsert`/`buildDict`.
-/

namespace GnosisQuery

/-- A row of the `content` table (only the columns the pipeline reads). -/
structure Content where
  id : Int
  user_id : String
  file_name : String
deriving Repr, DecidableEq

/-- A row of the `content_chunk` table; `embedding_id` is nullable. -/
structure ContentChunk where
  id : Int
  content_id : Int
  chunk_text : String
  embedding_id : Option Int
deriving Repr, DecidableEq

/-- The relational store visible to the service. -/
structure Db where
  contents : List Content
  chunks : List ContentChunk
deriving Repr

/-- One element of the scorer's `similar_embeddings` JSON array. -/
structure SimilarEmbedding where
  id : Int
  similarity_score : ℚ
deriving Repr, DecidableEq

/-- The scorer's HTTP reply: a status code and the parsed body
(the body is only consulted when the status is 200). -/
structure ScorerReply where
  status : Nat
  similar_embeddings : List SimilarEmbedding
deriving Repr

/-- The external similarity scorer: receives the query text, the
candidate embedding-id list and the limit (the JSON body of the POST
in Step 3 of `SearchResource.get`). -/
abbrev Scorer := String → List Int → Int → ScorerReply

/-- One entry of the `results` array of a successful search response. -/
structure SearchResult where
  chunk_id : Int
  content_id : Int
  file_name : String
  text : String
  similarity_score : ℚ
deriving Repr, DecidableEq

/-- The observable outcome of `SearchResource.get`: HTTP 400, HTTP 200
with a message and a result list, or HTTP 500. -/
inductive SearchOutcome where
  | badRequest (message : String)
  | ok (message : String) (results : List SearchResult)
  | internalError (message : String)
deriving Repr, DecidableEq

/-- Python falsiness of an optional string (`not user_id`):
`None` and the empty string are falsy. -/
def strFalsy : Option String → Bool
  | none => true
  | some s => s == ""

/-- Step 1 of `SearchResource.get`: content ids owned by the user,
optionally narrowed to one content id.  Mirrors
`content_query.filter(Content.user_id == user_id)` followed by
`if content_id: content_query.filter(Content.id == content_id)` —
note the Python truthiness test, under which `content_id = 0`
behaves like an absent `content_id`. -/
def contentIds (db : Db) (uid : String) (cid : Option Int) : List Int :=
  let base := db.contents.filter (fun c => c.user_id == uid)
  let narrowed :=
    match cid with
    | some v => if v == 0 then base else base.filter (fun c => c.id == v)
    | none => base
  narrowed.map (fun c => c.id)

/-- Step 2: `(chunk.id, chunk.embedding_id)` pairs of the chunks whose
`content_id` is in scope and whose `embedding_id` is not NULL. -/
def embeddingChunks (db : Db) (uid : String) (cid : Option Int) :
    List (Int × Int) :=
  db.chunks.filterMap (fun ch =>
    if (contentIds db uid cid).contains ch.content_id then
      ch.embedding_id.map (fun e => (ch.id, e))
    else none)

/-- Python `d[k] = v` on an association list kept in insertion order:
an existing key keeps its position and gets the new value; a new key
is appended at the end. -/
def dictInsert (d : List (Int × Int)) (k v : Int) : List (Int × Int) :=
  match d with
  | [] => [(k, v)]
  | p :: rest => if p.1 == k then (k, v) :: rest else p :: dictInsert rest k v

/-- The dict comprehension `{ec[1]: ec[0] for ec in embedding_chunks}`:
keys are embedding ids, values are chunk ids, later pairs overwrite
earlier ones on a duplicate key. -/
def buildDict (pairs : List (Int × Int)) : List (Int × Int) :=
  pairs.foldl (fun d ec => dictInsert d ec.2 ec.1) []

/-- Python `d.get(k)` / `d[k]` lookup on the association list. -/
def dictGet (d : List (Int × Int)) (k : Int) : Option Int :=
  (d.find? (fun p => p.1 == k)).map (fun p => p.2)

/-- The per-request `embedding_to_chunk` dict. -/
def embeddingToChunk (db : Db) (uid : String) (cid : Option Int) :
    List (Int × Int) :=
  buildDict (embeddingChunks db uid cid)

/-- The candidate list `list(embedding_to_chunk.keys())` sent to the
scorer. -/
def embeddingIds (db : Db) (uid : String) (cid : Option Int) : List Int :=
  (embeddingToChunk db uid cid).map (fun p => p.1)

/-- The eager list comprehension over an effectful-per-element lookup:
fails (like a `KeyError`) as soon as one element has no value. -/
def mapOption (f : α → Option β) : List α → Option (List β)
  | [] => some []
  | a :: as =>
    match f a, mapOption f as with
    | some b, some bs => some (b :: bs)
    | _, _ => none

/-- A row of the Step-5 join
`query(ContentChunk.id, chunk_text, content_id, Content.file_name).join(Content)`. -/
structure ChunkRow where
  id : Int
  chunk_text : String
  content_id : Int
  file_name : String
deriving Repr, DecidableEq

/-- Step 5: fetch the chunks whose id is in `ids`, inner-joined with
their parent `Content` row (the join drops a chunk whose `content_id`
matches no content row; the primary key makes the matching row unique,
modelled by `find?`). -/
def similarChunkRows (db : Db) (ids : List Int) : List ChunkRow :=
  db.chunks.filterMap (fun ch =>
    if ids.contains ch.id then
      (db.contents.find? (fun c => c.id == ch.content_id)).map
        (fun c => ⟨ch.id, ch.chunk_text, ch.content_id, c.file_name⟩)
    else none)

/-- Step 6's `next(emb['similarity_score'] for emb in similar_embeddings
if embedding_to_chunk[emb['id']] == chunk.id)`: the score of the first
ranked candidate that resolves to this chunk (`none` models the
`StopIteration` when no candidate matches). -/
def lookupScore (d : List (Int × Int)) (sims : List SimilarEmbedding)
    (chunkId : Int) : Option ℚ :=
  (sims.find? (fun emb => dictGet d emb.id == some chunkId)).map
    (fun emb => emb.similarity_score)

/-- Assemble one `SearchResult` from a joined row. -/
def assembleRow (d : List (Int × Int)) (sims : List SimilarEmbedding)
    (row : ChunkRow) : Option SearchResult :=
  (lookupScore d sims row.id).map (fun s =>
    ⟨row.id, row.content_id, row.file_name, row.chunk_text, s⟩)

/-- Stable insertion into a list kept in non-increasing score order:
the new element goes before the first strictly smaller score and after
any earlier element with an equal score, matching the tie behaviour of
Python's stable `sort(..., reverse=True)`. -/
def insertByScore (r : SearchResult) : List SearchResult → List SearchResult
  | [] => [r]
  | x :: xs =>
    if x.similarity_score ≤ r.similarity_score then r :: x :: xs
    else x :: insertByScore r xs

/-- The stable descending sort
`results.sort(key=lambda x: x['similarity_score'], reverse=True)`. -/
def sortByScoreDesc : List SearchResult → List SearchResult
  | [] => []
  | x :: xs => insertByScore x (sortByScoreDesc xs)

/-- The body of the `try:` block of `SearchResource.get` after parameter
validation.  Any exception escaping a step (a failed scorer call re-raised
by `api.abort`, a `KeyError` on a dangling embedding id, a
`StopIteration` in the score lookup) is caught by the outer
`except Exception` and surfaces as HTTP 500 "Internal server error". -/
def searchCore (db : Db) (scorer : Scorer) (uid qt : String)
    (cid : Option Int) (limit : Int) : SearchOutcome :=
  if (contentIds db uid cid).isEmpty then
    .ok "No content found for this user" []
  else if (embeddingChunks db uid cid).isEmpty then
    .ok "No embeddings found for this user\x27s content" []
  else
    let d := embeddingToChunk db uid cid
    let reply := scorer qt (embeddingIds db uid cid) limit
    if reply.status ≠ 200 then
      .internalError "Internal server error"
    else
      let sims := reply.similar_embeddings
      match mapOption (fun emb => dictGet d emb.id) sims with
      | none => .internalError "Internal server error"
      | some similarChunkIds =>
        match mapOption (assembleRow d sims) (similarChunkRows db similarChunkIds) with
        | none => .internalError "Internal server error"
        | some results =>
          .ok "Search completed successfully" (sortByScoreDesc results)

/-- The endpoint `SearchResource.get`: parameter validation followed by
the pipeline. -/
def searchGet (db : Db) (scorer : Scorer) (user_id query_text : Option String)
    (content_id : Option Int) (limit : Int) : SearchOutcome :=
  if strFalsy user_id || strFalsy query_text then
    .badRequest "Missing required parameters: user_id and query"
  else
    searchCore db scorer (user_id.getD "") (query_text.getD "") content_id limit

/-! Concrete instances used to witness the theorems below. -/

/-- A store with one document of owner "51" and three embedded chunks
(embedding ids 101, 102, 103), as in the scenario of the spec. -/
def dbA : Db :=
  { contents := [⟨10, "51", "mises.pdf"⟩],
    chunks := [⟨1, 10, "t1", some 101⟩, ⟨2, 10, "t2", some 102⟩,
               ⟨3, 10, "t3", some 103⟩] }

/-- A store whose only document has a single chunk without embedding. -/
def dbB : Db :=
  { contents := [⟨10, "51", "mises.pdf"⟩], chunks := [⟨1, 10, "t1", none⟩] }

/-- A scorer ranking embedding 102 above 101. -/
def scorerA : Scorer := fun _ _ _ => ⟨200, [⟨102, (9 : ℚ)⟩, ⟨101, (5 : ℚ)⟩]⟩

/-- A scorer returning the same embedding id twice. -/
def scorerDup : Scorer := fun _ _ _ => ⟨200, [⟨102, (9 : ℚ)⟩, ⟨102, (5 : ℚ)⟩]⟩

/-- A scorer whose call fails with HTTP 503. -/
def scorerFail : Scorer := fun _ _ _ => ⟨503, []⟩

/-- A scorer returning an embedding id outside any candidate set. -/
def scorerDangling : Scorer := fun _ _ _ => ⟨200, [⟨999, (5 : ℚ)⟩]⟩

/-! Helper lemmas about the sort. -/

theorem mem_insertByScore {r a : SearchResult} {l : List SearchResult} :
    a ∈ insertByScore r l ↔ a = r ∨ a ∈ l := by
  induction l with
  | nil => simp [insertByScore]
  | cons x xs ih =>
    simp only [insertByScore]
    split
    · simp [List.mem_cons]
    · simp only [List.mem_cons, ih]
      tauto

theorem length_insertByScore (r : SearchResult) (l : List SearchResult) :
    (insertByScore r l).length = l.length + 1 := by
  induction l with
  | nil => rfl
  | cons x xs ih =>
    simp only [insertByScore]
    split
    · simp
    · simp [ih]

theorem pairwise_insertByScore {l : List SearchResult} (r : SearchResult)
    (h : l.Pairwise (fun a b => b.similarity_score ≤ a.similarity_score)) :
    (insertByScore r l).Pairwise
      (fun a b => b.similarity_score ≤ a.similarity_score) := by
  induction l with
  | nil => simp [insertByScore]
  | cons x xs ih =>
    rcases List.pairwise_cons.1 h with ⟨hx, hxs⟩
    simp only [insertByScore]
    split
    · rename_i hle
      refine List.pairwise_cons.2 ⟨?_, h⟩
      intro b hb
      rcases List.mem_cons.1 hb with rfl | hb
      · exact hle
      · exact le_trans (hx b hb) hle
    · rename_i hle
      refine List.pairwise_cons.2 ⟨?_, ih hxs⟩
      intro b hb
      rcases mem_insertByScore.1 hb with rfl | hb
      · exact le_of_not_le hle
      · exact hx b hb

theorem sorted_sortByScoreDesc (l : List SearchResult) :
    (sortByScoreDesc l).Pairwise
      (fun a b => b.similarity_score ≤ a.similarity_score) := by
  induction l with
  | nil => simp [sortByScoreDesc]
  | cons x xs ih => exact pairwise_insertByScore x ih

theorem mem_sortByScoreDesc {a : SearchResult} {l : List SearchResult} :
    a ∈ sortByScoreDesc l ↔ a ∈ l := by
  induction l with
  | nil => simp [sortByScoreDesc]
  | cons x xs ih =>
    simp only [sortByScoreDesc, mem_insertByScore, List.mem_cons, ih]

theorem length_sortByScoreDesc (l : List SearchResult) :
    (sortByScoreDesc l).length = l.length := by
  induction l with
  | nil => rfl
  | cons x xs ih => simp [sortByScoreDesc, length_insertByScore, ih]

/-! Helper lemmas about `mapOption`. -/

theorem mapOption_eq_none {f : α → Option β} {l : List α} {a : α}
    (ha : a ∈ l) (hfa : f a = none) : mapOption f l = none := by
  induction l with
  | nil => cases ha
  | cons x xs ih =>
    rcases List.mem_cons.1 ha with rfl | ha
    · simp [mapOption, hfa]
    · simp only [mapOption, ih ha]
      cases f x <;> rfl

theorem length_mapOption {f : α → Option β} {l : List α} {bs : List β}
    (h : mapOption f l = some bs) : bs.length = l.length := by
  induction l generalizing bs with
  | nil =>
    simp only [mapOption, Option.some.injEq] at h
    subst h
    rfl
  | cons x xs ih =>
    simp only [mapOption] at h
    cases hfx : f x with
    | none => rw [hfx] at h; exact absurd h (by simp)
    | some b =>
      rw [hfx] at h
      cases hrest : mapOption f xs with
      | none => rw [hrest] at h; exact absurd h (by simp)
      | some bs' =>
        rw [hrest] at h
        cases h
        simp [ih hrest]

theorem mem_mapOption {f : α → Option β} {l : List α} {bs : List β}
    (h : mapOption f l = some bs) {b : β} (hb : b ∈ bs) :
    ∃ a ∈ l, f a = some b := by
  induction l generalizing bs with
  | nil =>
    simp only [mapOption, Option.some.injEq] at h
    subst h
    cases hb
  | cons x xs ih =>
    simp only [mapOption] at h
    cases hfx : f x with
    | none => rw [hfx] at h; exact absurd h (by simp)
    | some b' =>
      rw [hfx] at h
      cases hrest : mapOption f xs with
      | none => rw [hrest] at h; exact absurd h (by simp)
      | some bs' =>
        rw [hrest] at h
        cases h
        rcases List.mem_cons.1 hb with rfl | hb
        · exact ⟨x, List.mem_cons_self x xs, hfx⟩
        · rcases ih hrest hb with ⟨a, ha, hfa⟩
          exact ⟨a, List.mem_cons_of_mem x ha, hfa⟩

theorem forall_mem_mapOption {f : α → Option β} {l : List α} {bs : List β}
    (h : mapOption f l = some bs) {a : α} (ha : a ∈ l) :
    ∃ b ∈ bs, f a = some b := by
  induction l generalizing bs with
  | nil => cases ha
  | cons x xs ih =>
    simp only [mapOption] at h
    cases hfx : f x with
    | none => rw [hfx] at h; exact absurd h (by simp)
    | some b' =>
      rw [hfx] at h
      cases hrest : mapOption f xs with
      | none => rw [hrest] at h; exact absurd h (by simp)
      | some bs' =>
        rw [hrest] at h
        cases h
        rcases List.mem_cons.1 ha with rfl | ha
        · exact ⟨b', List.mem_cons_self b' bs', hfx⟩
        · rcases ih hrest ha with ⟨b, hb, hfb⟩
          exact ⟨b, List.mem_cons_of_mem b' hb, hfb⟩

theorem nodup_mapOption {f : α → Option β} {g : α → γ} {l : List α}
    {bs : List β} (h : mapOption f l = some bs)
    (hg : (l.map g).Nodup)
    (hinj : ∀ a₁ ∈ l, ∀ a₂ ∈ l, ∀ b, f a₁ = some b → f a₂ = some b →
      g a₁ = g a₂) :
    bs.Nodup := by
  induction l generalizing bs with
  | nil =>
    simp only [mapOption, Option.some.injEq] at h
    subst h
    exact List.nodup_nil
  | cons x xs ih =>
    simp only [mapOption] at h
    cases hfx : f x with
    | none => rw [hfx] at h; exact absurd h (by simp)
    | some b =>
      rw [hfx] at h
      cases hrest : mapOption f xs with
      | none => rw [hrest] at h; exact absurd h (by simp)
      | some bs' =>
        rw [hrest] at h
        cases h
        rcases List.pairwise_cons.1 hg with ⟨hgx, hgxs⟩
        refine List.Pairwise.cons ?_ ?_
        · intro b' hb' hbb'
          subst hbb'
          rcases mem_mapOption hrest hb' with ⟨a, ha, hfa⟩
          exact hgx (g a) (List.mem_map_of_mem g ha)
            (hinj x (List.mem_cons_self x xs) a (List.mem_cons_of_mem x ha)
              b hfx hfa)
        · refine ih hrest hgxs ?_
          intro a₁ h₁ a₂ h₂ b' e₁ e₂
          exact hinj a₁ (List.mem_cons_of_mem x h₁) a₂
            (List.mem_cons_of_mem x h₂) b' e₁ e₂

/-! Helper lemmas about the dict model. -/

theorem dictGet_nil (e : Int) : dictGet [] e = none := rfl

theorem dictGet_cons (p : Int × Int) (d : List (Int × Int)) (e : Int) :
    dictGet (p :: d) e = if p.1 = e then some p.2 else dictGet d e := by
  by_cases h : p.1 = e
  · rw [dictGet, List.find?_cons_of_pos d (by simpa using h), if_pos h]
    rfl
  · rw [dictGet, List.find?_cons_of_neg d (by simpa using h), if_neg h]
    rfl

theorem dictGet_dictInsert (d : List (Int × Int)) (k v e : Int) :
    dictGet (dictInsert d k v) e = if e = k then some v else dictGet d e := by
  induction d with
  | nil =>
    simp only [dictInsert]
    rw [dictGet_cons]
    by_cases hek : e = k
    · rw [if_pos (hek ▸ rfl : k = e), if_pos hek]
    · rw [if_neg (fun h => hek h.symm), if_neg hek]
  | cons p rest ih =>
    simp only [dictInsert]
    split
    · rename_i hpk
      have hpk' : p.1 = k := by simpa using hpk
      rw [dictGet_cons, dictGet_cons]
      by_cases hek : e = k
      · rw [if_pos (hek ▸ rfl : k = e), if_pos hek]
      · rw [if_neg (fun h => hek h.symm), if_neg hek,
          if_neg (fun h => hek ((hpk' ▸ h : k = e).symm))]
    · rename_i hpk
      have hpk' : ¬ p.1 = k := by simpa using hpk
      rw [dictGet_cons, dictGet_cons]
      by_cases hpe : p.1 = e
      · have hek : ¬ e = k := fun h => hpk' (hpe.trans h)
        rw [if_pos hpe, if_neg hek, if_pos hpe]
      · rw [if_neg hpe, ih, if_neg hpe]

theorem mem_dictInsert {d : List (Int × Int)} {k v : Int} {q : Int × Int}
    (h : q ∈ dictInsert d k v) : q = (k, v) ∨ q ∈ d := by
  induction d with
  | nil => simpa [dictInsert] using h
  | cons p rest ih =>
    simp only [dictInsert] at h
    split at h
    · rcases List.mem_cons.1 h with rfl | h
      · exact Or.inl rfl
      · exact Or.inr (List.mem_cons_of_mem p h)
    · rcases List.mem_cons.1 h with rfl | h
      · exact Or.inr (List.mem_cons_self q rest)
      · rcases ih h with h | h
        · exact Or.inl h
        · exact Or.inr (List.mem_cons_of_mem p h)

theorem dictGet_foldl (ps : List (Int × Int)) (d : List (Int × Int)) (e : Int) :
    dictGet (ps.foldl (fun acc ec => dictInsert acc ec.2 ec.1) d) e =
      match ps.reverse.find? (fun p => p.2 == e) with
      | some p => some p.1
      | none => dictGet d e := by
  induction ps generalizing d with
  | nil => simp
  | cons p ps ih =>
    simp only [List.foldl_cons, List.reverse_cons, ih, List.find?_append]
    cases hfind : ps.reverse.find? (fun q => q.2 == e) with
    | some q => simp
    | none =>
      simp only [Option.none_or]
      by_cases hpe : p.2 = e
      · simp [List.find?, hpe, dictGet_dictInsert]
      · have h1 : (p.2 == e) = false := by simp [hpe]
        have h2 : ¬ e = p.2 := fun h => hpe h.symm
        simp [List.find?, h1, dictGet_dictInsert, h2]

theorem dictGet_buildDict (ps : List (Int × Int)) (e : Int) :
    dictGet (buildDict ps) e =
      (ps.reverse.find? (fun p => p.2 == e)).map (fun p => p.1) := by
  rw [buildDict, dictGet_foldl]
  cases ps.reverse.find? (fun p => p.2 == e) <;> simp [dictGet]

theorem mem_foldl_dictInsert {ps : List (Int × Int)} {d : List (Int × Int)}
    {q : Int × Int}
    (h : q ∈ ps.foldl (fun acc ec => dictInsert acc ec.2 ec.1) d) :
    q ∈ d ∨ (q.2, q.1) ∈ ps := by
  induction ps generalizing d with
  | nil => exact Or.inl h
  | cons p ps ih =>
    simp only [List.foldl_cons] at h
    rcases ih h with h | h
    · rcases mem_dictInsert h with rfl | h
      · exact Or.inr (List.mem_cons_self _ _)
      · exact Or.inl h
    · exact Or.inr (List.mem_cons_of_mem p h)

theorem mem_buildDict {ps : List (Int × Int)} {q : Int × Int}
    (h : q ∈ buildDict ps) : (q.2, q.1) ∈ ps := by
  rcases mem_foldl_dictInsert h with h | h
  · cases h
  · exact h

theorem pair_of_dictGet_buildDict {ps : List (Int × Int)} {e c : Int}
    (h : dictGet (buildDict ps) e = some c) : (c, e) ∈ ps := by
  rw [dictGet_buildDict] at h
  rcases Option.map_eq_some'.1 h with ⟨p, hp, hpc⟩
  have hmem : p ∈ ps.reverse := List.mem_of_find?_eq_some hp
  have hpe : p.2 = e := by simpa using List.find?_some hp
  have : p = (c, e) := by
    rcases p with ⟨p1, p2⟩
    simp only at hpc hpe
    simp [hpc, hpe]
  rw [this] at hmem
  exact List.mem_reverse.1 hmem

theorem mem_keys_of_dictGet {d : List (Int × Int)} {e c : Int}
    (h : dictGet d e = some c) : e ∈ d.map (fun p => p.1) := by
  rw [dictGet] at h
  rcases Option.map_eq_some'.1 h with ⟨p, hp, _⟩
  have hmem : p ∈ d := List.mem_of_find?_eq_some hp
  have hpe : p.1 = e := by simpa using List.find?_some hp
  exact hpe ▸ List.mem_map_of_mem (fun p => p.1) hmem

theorem dictGet_buildDict_inj {ps : List (Int × Int)}
    (hnd : (ps.map (fun p => p.1)).Nodup) {e₁ e₂ c : Int}
    (h₁ : dictGet (buildDict ps) e₁ = some c)
    (h₂ : dictGet (buildDict ps) e₂ = some c) : e₁ = e₂ := by
  have hm₁ := pair_of_dictGet_buildDict h₁
  have hm₂ := pair_of_dictGet_buildDict h₂
  have := List.inj_on_of_nodup_map hnd hm₁ hm₂ rfl
  exact congrArg Prod.snd this

/-! Helper lemmas about the pipeline stages. -/

theorem mem_contentIds {db : Db} {uid : String} {cid : Option Int} {i : Int}
    (h : i ∈ contentIds db uid cid) :
    ∃ c ∈ db.contents, c.id = i ∧ c.user_id = uid := by
  simp only [contentIds] at h
  rcases List.mem_map.1 h with ⟨c, hc, rfl⟩
  have hcb : c ∈ db.contents.filter (fun c => c.user_id == uid) := by
    cases cid with
    | none => exact hc
    | some v =>
      dsimp only at hc
      by_cases hv : (v == 0) = true
      · rwa [if_pos hv] at hc
      · rw [if_neg hv] at hc
        exact List.mem_of_mem_filter hc
  rcases List.mem_filter.1 hcb with ⟨hmem, huser⟩
  exact ⟨c, hmem, rfl, by simpa using huser⟩

theorem mem_contentIds_some {db : Db} {uid : String} {v i : Int} (hv : v ≠ 0)
    (h : i ∈ contentIds db uid (some v)) : i = v := by
  simp only [contentIds] at h
  rw [if_neg (by simpa using hv)] at h
  rcases List.mem_map.1 h with ⟨c, hc, rfl⟩
  rcases List.mem_filter.1 hc with ⟨_, hcv⟩
  simpa using hcv

theorem mem_embeddingChunks {db : Db} {uid : String} {cid : Option Int}
    {p : Int × Int} (h : p ∈ embeddingChunks db uid cid) :
    ∃ ch ∈ db.chunks, ch.id = p.1 ∧ ch.embedding_id = some p.2 ∧
      ch.content_id ∈ contentIds db uid cid := by
  simp only [embeddingChunks] at h
  rcases List.mem_filterMap.1 h with ⟨ch, hch, hf⟩
  split at hf
  · rename_i hcont
    rcases Option.map_eq_some'.1 hf with ⟨e, he, hpe⟩
    refine ⟨ch, hch, ?_, ?_, by simpa using hcont⟩
    · rw [← hpe]
    · rw [he, ← hpe]
  · exact absurd hf (by simp)

theorem scid_provenance {db : Db} {uid : String} {cid : Option Int} {e i : Int}
    (h : dictGet (embeddingToChunk db uid cid) e = some i) :
    ∃ ch ∈ db.chunks, ch.id = i ∧ ch.embedding_id = some e ∧
      ch.content_id ∈ contentIds db uid cid := by
  have hp : (i, e) ∈ embeddingChunks db uid cid :=
    pair_of_dictGet_buildDict h
  exact mem_embeddingChunks hp

theorem mem_similarChunkRows {db : Db} {ids : List Int} {row : ChunkRow}
    (h : row ∈ similarChunkRows db ids) :
    ∃ ch ∈ db.chunks, row.id = ch.id ∧ row.content_id = ch.content_id ∧
      ch.id ∈ ids := by
  simp only [similarChunkRows] at h
  rcases List.mem_filterMap.1 h with ⟨ch, hch, hf⟩
  split at hf
  · rename_i hcont
    rcases Option.map_eq_some'.1 hf with ⟨c, _, hrow⟩
    exact ⟨ch, hch, by rw [← hrow], by rw [← hrow], by simpa using hcont⟩
  · exact absurd hf (by simp)

theorem searchGet_eq_core (db : Db) (f : Scorer) {uid qt : String}
    (cid : Option Int) (limit : Int) (huid : uid ≠ "") (hqt : qt ≠ "") :
    searchGet db f (some uid) (some qt) cid limit =
      searchCore db f uid qt cid limit := by
  simp [searchGet, strFalsy, huid, hqt]

theorem searchCore_ok {db : Db} {f : Scorer} {uid qt : String}
    {cid : Option Int} {limit : Int} {msg : String}
    {results : List SearchResult}
    (h : searchCore db f uid qt cid limit = .ok msg results) :
    (contentIds db uid cid = [] ∧
      msg = "No content found for this user" ∧ results = [])
    ∨ (contentIds db uid cid ≠ [] ∧ embeddingChunks db uid cid = [] ∧
        msg = "No embeddings found for this user\x27s content" ∧ results = [])
    ∨ (contentIds db uid cid ≠ [] ∧ embeddingChunks db uid cid ≠ [] ∧
        (f qt (embeddingIds db uid cid) limit).status = 200 ∧
        ∃ scids rs,
          mapOption (fun emb => dictGet (embeddingToChunk db uid cid) emb.id)
            (f qt (embeddingIds db uid cid) limit).similar_embeddings =
              some scids ∧
          mapOption (assembleRow (embeddingToChunk db uid cid)
              (f qt (embeddingIds db uid cid) limit).similar_embeddings)
            (similarChunkRows db scids) = some rs ∧
          msg = "Search completed successfully" ∧
          results = sortByScoreDesc rs) := by
  simp only [searchCore] at h
  split at h
  · rename_i h1
    injection h with hmsg hres
    exact Or.inl ⟨by simpa using h1, hmsg.symm, hres.symm⟩
  · rename_i h1
    split at h
    · rename_i h2
      injection h with hmsg hres
      exact Or.inr (Or.inl ⟨by simpa using h1, by simpa using h2,
        hmsg.symm, hres.symm⟩)
    · rename_i h2
      split at h
      · simp at h
      · rename_i h3
        split at h
        · simp at h
        · rename_i scids h4
          split at h
          · simp at h
          · rename_i rs h5
            injection h with hmsg hres
            exact Or.inr (Or.inr ⟨by simpa using h1, by simpa using h2,
              not_not.1 h3, scids, rs, h4, h5, hmsg.symm, hres.symm⟩)

theorem nodup_map_filterMap {α β γ : Type _} {l : List α} {F : α → Option β}
    {g : β → γ} {h : α → γ}
    (hF : ∀ a b, F a = some b → g b = h a) (hnd : (l.map h).Nodup) :
    ((l.filterMap F).map g).Nodup := by
  induction l with
  | nil => simp
  | cons a l ih =>
    rcases List.pairwise_cons.1 hnd with ⟨ha, hl⟩
    cases hFa : F a with
    | none => simpa [List.filterMap_cons, hFa] using ih hl
    | some b =>
      simp only [List.filterMap_cons, hFa, List.map_cons]
      refine List.Pairwise.cons ?_ (ih hl)
      intro c hc hgc
      rcases List.mem_map.1 hc with ⟨b2, hb2, rfl⟩
      rcases List.mem_filterMap.1 hb2 with ⟨a2, ha2, hFa2⟩
      exact ha (h a2) (List.mem_map_of_mem h ha2)
        (by rw [← hF a b hFa, ← hF a2 b2 hFa2, hgc])

theorem similarChunkRows_mem_of {db : Db} {ids : List Int}
    {ch : ContentChunk} (hch : ch ∈ db.chunks) (hid : ch.id ∈ ids)
    (hcont : ∃ c ∈ db.contents, c.id = ch.content_id) :
    ∃ row ∈ similarChunkRows db ids, row.id = ch.id := by
  rcases hcont with ⟨c, hc, hcid⟩
  have hfind : (db.contents.find? (fun c2 => c2.id == ch.content_id)).isSome := by
    rw [List.find?_isSome]
    exact ⟨c, hc, by simp [hcid]⟩
  rcases Option.isSome_iff_exists.1 hfind with ⟨c2, hc2⟩
  refine ⟨⟨ch.id, ch.chunk_text, ch.content_id, c2.file_name⟩, ?_, rfl⟩
  apply List.mem_filterMap.2
  refine ⟨ch, hch, ?_⟩
  rw [if_pos (by simpa using hid), hc2]
  rfl

/-! The claims. -/

/-- C1: for every valid search request, any results list returned with an
HTTP 200 outcome of the search endpoint is sorted by `similarity_score`
in non-increasing (descending) order; ties may appear in any order. -/
theorem search_results_sorted_by_score_desc
    (db : Db) (f : Scorer) (user_id query_text : Option String)
    (cid : Option Int) (limit : Int) (msg : String)
    (results : List SearchResult)
    (h : searchGet db f user_id query_text cid limit = .ok msg results) :
    results.Pairwise (fun a b => b.similarity_score ≤ a.similarity_score) := by
  rw [searchGet] at h
  split at h
  · exact absurd h (by simp)
  · rcases searchCore_ok h with ⟨_, _, hres⟩ | ⟨_, _, _, hres⟩ |
      ⟨_, _, _, scids, rs, _, _, _, hres⟩
    · subst hres; exact List.Pairwise.nil
    · subst hres; exact List.Pairwise.nil
    · subst hres; exact sorted_sortByScoreDesc rs

/-- Witness for C1: the scenario of the spec (owner 51, scorer ranks
embedding 102 at score 9 above embedding 101 at score 5). -/
theorem search_results_sorted_by_score_desc_witness :
    ([⟨2, 10, "mises.pdf", "t2", (9 : ℚ)⟩,
      ⟨1, 10, "mises.pdf", "t1", (5 : ℚ)⟩] : List SearchResult).Pairwise
      (fun a b => b.similarity_score ≤ a.similarity_score) :=
  search_results_sorted_by_score_desc dbA scorerA (some "51") (some "q")
    none 2 "Search completed successfully" _ (by decide)

/-- C4: if the scorer replies with success but one of its candidates has
an embedding id absent from the request's embedding-to-chunk index, the
search aborts with HTTP 500 — it is not skipped and no result list is
produced. -/
theorem dangling_embedding_aborts_with_500
    (db : Db) (f : Scorer) (uid qt : String) (cid : Option Int) (limit : Int)
    (huid : uid ≠ "") (hqt : qt ≠ "")
    (hc : contentIds db uid cid ≠ [])
    (he : embeddingChunks db uid cid ≠ [])
    (hok : (f qt (embeddingIds db uid cid) limit).status = 200)
    (hdangling : ∃ emb ∈
        (f qt (embeddingIds db uid cid) limit).similar_embeddings,
      dictGet (embeddingToChunk db uid cid) emb.id = none) :
    searchGet db f (some uid) (some qt) cid limit =
      .internalError "Internal server error" := by
  rw [searchGet_eq_core db f cid limit huid hqt]
  rcases hdangling with ⟨emb, hemb, hnone⟩
  have hmap : mapOption
      (fun emb => dictGet (embeddingToChunk db uid cid) emb.id)
      (f qt (embeddingIds db uid cid) limit).similar_embeddings = none :=
    mapOption_eq_none hemb hnone
  simp only [searchCore]
  rw [if_neg (by simpa using hc), if_neg (by simpa using he),
    if_neg (by simp [hok]), hmap]

/-- Witness for C4: the scorer returns candidate 999, which no chunk of
the store carries. -/
theorem dangling_embedding_aborts_with_500_witness :
    searchGet dbA scorerDangling (some "51") (some "q") none 5 =
      .internalError "Internal server error" :=
  dangling_embedding_aborts_with_500 dbA scorerDangling "51" "q" none 5
    (by decide) (by decide) (by decide) (by decide) (by decide)
    ⟨⟨999, (5 : ℚ)⟩, by decide, by decide⟩

/-- C5: a non-success scorer reply makes the whole search fail with a
single HTTP 500 and no results; and the outcome depends only on the one
scorer reply at the issued request — any scorer agreeing there yields
the identical outcome, so no retry is ever attempted. -/
theorem scorer_failure_aborts_with_500_no_retry
    (db : Db) (f : Scorer) (uid qt : String) (cid : Option Int) (limit : Int)
    (huid : uid ≠ "") (hqt : qt ≠ "")
    (hc : contentIds db uid cid ≠ [])
    (he : embeddingChunks db uid cid ≠ [])
    (hfail : (f qt (embeddingIds db uid cid) limit).status ≠ 200) :
    searchGet db f (some uid) (some qt) cid limit =
      .internalError "Internal server error" ∧
    ∀ g : Scorer, g qt (embeddingIds db uid cid) limit =
        f qt (embeddingIds db uid cid) limit →
      searchGet db g (some uid) (some qt) cid limit =
        searchGet db f (some uid) (some qt) cid limit := by
  constructor
  · rw [searchGet_eq_core db f cid limit huid hqt]
    simp only [searchCore]
    rw [if_neg (by simpa using hc), if_neg (by simpa using he),
      if_pos hfail]
  · intro g hg
    rw [searchGet_eq_core db g cid limit huid hqt,
      searchGet_eq_core db f cid limit huid hqt]
    simp only [searchCore, hg]

/-- Witness for C5: a scorer failing with HTTP 503. -/
theorem scorer_failure_aborts_with_500_no_retry_witness :
    searchGet dbA scorerFail (some "51") (some "q") none 5 =
      .internalError "Internal server error" ∧
    searchGet dbA scorerFail (some "51") (some "q") none 5 =
      searchGet dbA scorerFail (some "51") (some "q") none 5 :=
  ⟨(scorer_failure_aborts_with_500_no_retry dbA scorerFail "51" "q" none 5
      (by decide) (by decide) (by decide) (by decide) (by decide)).1,
   (scorer_failure_aborts_with_500_no_retry dbA scorerFail "51" "q" none 5
      (by decide) (by decide) (by decide) (by decide) (by decide)).2
     scorerFail rfl⟩

/-- C7: an owner with no matching documents gets HTTP 200, empty
results and an explanatory message; an owner whose documents have no
embedded chunks gets HTTP 200, empty results and a distinct message;
in both cases the outcome is the same for every scorer, so the scorer
is never invoked. -/
theorem empty_scopes_return_ok_with_distinct_messages
    (db : Db) (uid qt : String) (cid : Option Int) (limit : Int)
    (huid : uid ≠ "") (hqt : qt ≠ "") :
    (contentIds db uid cid = [] →
      ∀ g : Scorer, searchGet db g (some uid) (some qt) cid limit =
        .ok "No content found for this user" [])
    ∧ (contentIds db uid cid ≠ [] → embeddingChunks db uid cid = [] →
        ∀ g : Scorer, searchGet db g (some uid) (some qt) cid limit =
          .ok "No embeddings found for this user\x27s content" [])
    ∧ "No content found for this user" ≠
        "No embeddings found for this user\x27s content" := by
  refine ⟨?_, ?_, by decide⟩
  · intro hc g
    rw [searchGet_eq_core db g cid limit huid hqt]
    simp only [searchCore]
    rw [if_pos (by simpa using hc)]
  · intro hc he g
    rw [searchGet_eq_core db g cid limit huid hqt]
    simp only [searchCore]
    rw [if_neg (by simpa using hc), if_pos (by simpa using he)]

/-- Witness for C7: owner "99" owns nothing in `dbA`; owner "51" in
`dbB` owns one document whose chunk has no embedding. -/
theorem empty_scopes_return_ok_with_distinct_messages_witness :
    searchGet dbA scorerA (some "99") (some "q") none 5 =
      .ok "No content found for this user" [] ∧
    searchGet dbB scorerA (some "51") (some "q") none 5 =
      .ok "No embeddings found for this user\x27s content" [] :=
  ⟨(empty_scopes_return_ok_with_distinct_messages dbA "99" "q" none 5
      (by decide) (by decide)).1 (by decide) scorerA,
   (empty_scopes_return_ok_with_distinct_messages dbB "51" "q" none 5
      (by decide) (by decide)).2.1 (by decide) (by decide) scorerA⟩

/-- C9: in the Embedding Index Mapper, the value stored for an embedding
id is the chunk id of the LAST input pair carrying that embedding id —
on a duplicated embedding id the later pair in iteration order silently
overwrites the earlier one — and lookup is total, raising no error. -/
theorem mapper_later_duplicate_wins (pairs : List (Int × Int)) (e : Int) :
    dictGet (buildDict pairs) e =
      (pairs.reverse.find? (fun p => p.2 == e)).map (fun p => p.1) :=
  dictGet_buildDict pairs e

/-- C10: supplying `content_id = 0` behaves exactly as omitting
`content_id`: the outcome of the endpoint is identical. -/
theorem content_id_zero_behaves_as_absent (db : Db) (f : Scorer)
    (user_id query_text : Option String) (limit : Int) :
    searchGet db f user_id query_text (some 0) limit =
      searchGet db f user_id query_text none limit := by
  have hcore : ∀ uid qt, searchCore db f uid qt (some 0) limit =
      searchCore db f uid qt none limit := by
    intro uid qt
    have hc : contentIds db uid (some 0) = contentIds db uid none := by
      simp [contentIds]
    have he : embeddingChunks db uid (some 0) =
        embeddingChunks db uid none := by
      simp [embeddingChunks, hc]
    simp only [searchCore, embeddingToChunk, embeddingIds, hc, he]
  simp only [searchGet]
  split
  · rfl
  · exact hcore _ _

theorem nodup_map_id_similarChunkRows {db : Db} {ids : List Int}
    (hnd : (db.chunks.map (fun ch => ch.id)).Nodup) :
    ((similarChunkRows db ids).map (fun row => row.id)).Nodup := by
  simp only [similarChunkRows]
  refine nodup_map_filterMap ?_ hnd
  intro ch row hrow
  split at hrow
  · rcases Option.map_eq_some'.1 hrow with ⟨c, _, hr⟩
    rw [← hr]
  · exact absurd hrow (by simp)

theorem map_id_similarChunkRows_subset {db : Db} {ids : List Int} :
    (similarChunkRows db ids).map (fun row => row.id) ⊆ ids := by
  intro i hi
  rcases List.mem_map.1 hi with ⟨row, hrow, rfl⟩
  rcases mem_similarChunkRows hrow with ⟨ch, _, hrid, _, hcids⟩
  rw [hrid]
  exact hcids

theorem length_similarChunkRows_le {db : Db} {ids : List Int}
    (hnd : (db.chunks.map (fun ch => ch.id)).Nodup) :
    (similarChunkRows db ids).length ≤ ids.length := by
  have h := (List.subperm_of_subset (@nodup_map_id_similarChunkRows db ids hnd)
    (@map_id_similarChunkRows_subset db ids)).length_le
  simpa using h

theorem nodup_fst_embeddingChunks {db : Db} {uid : String} {cid : Option Int}
    (hnd : (db.chunks.map (fun ch => ch.id)).Nodup) :
    ((embeddingChunks db uid cid).map (fun p => p.1)).Nodup := by
  simp only [embeddingChunks]
  refine nodup_map_filterMap ?_ hnd
  intro ch p hp
  split at hp
  · rcases Option.map_eq_some'.1 hp with ⟨e, _, hpe⟩
    rw [← hpe]
  · exact absurd hp (by simp)

/-- C6: every chunk_id in the results of a successful search corresponds
to a chunk of the store whose embedding_id was among the candidate
embedding ids sent to the scorer for that request. -/
theorem results_chunks_from_candidate_set
    (db : Db) (f : Scorer) (uid qt : String) (cid : Option Int) (limit : Int)
    (msg : String) (results : List SearchResult)
    (h : searchGet db f (some uid) (some qt) cid limit = .ok msg results) :
    ∀ r ∈ results, ∃ ch ∈ db.chunks, ch.id = r.chunk_id ∧
      ∃ e, ch.embedding_id = some e ∧ e ∈ embeddingIds db uid cid := by
  intro r hr
  rw [searchGet] at h
  split at h
  · exact absurd h (by simp)
  · simp only [Option.getD_some] at h
    rcases searchCore_ok h with ⟨_, _, hres⟩ | ⟨_, _, _, hres⟩ |
      ⟨_, _, _, scids, rs, hm1, hm2, _, hres⟩
    · subst hres; cases hr
    · subst hres; cases hr
    · subst hres
      have hr2 := mem_sortByScoreDesc.1 hr
      rcases mem_mapOption hm2 hr2 with ⟨row, hrow, hass⟩
      simp only [assembleRow] at hass
      rcases Option.map_eq_some'.1 hass with ⟨s, _, hrs⟩
      have hid : row.id = r.chunk_id := by rw [← hrs]
      rcases mem_similarChunkRows hrow with ⟨ch, hch, hrid, hrc, hcids⟩
      rcases mem_mapOption hm1 hcids with ⟨emb, hemb, hget⟩
      rcases scid_provenance hget with ⟨ch2, hch2, hid2, hemb2, hcont2⟩
      refine ⟨ch2, hch2, ?_, emb.id, hemb2, mem_keys_of_dictGet hget⟩
      rw [hid2, ← hrid, hid]

/-- Witness for C6: the result with chunk_id 2 comes from the chunk
carrying embedding 102, which was sent to the scorer. -/
theorem results_chunks_from_candidate_set_witness :
    ∃ ch ∈ dbA.chunks, ch.id = (2 : Int) ∧
      ∃ e, ch.embedding_id = some e ∧ e ∈ embeddingIds dbA "51" none :=
  results_chunks_from_candidate_set dbA scorerA "51" "q" none 2
    "Search completed successfully"
    [⟨2, 10, "mises.pdf", "t2", (9 : ℚ)⟩, ⟨1, 10, "mises.pdf", "t1", (5 : ℚ)⟩]
    (by decide) ⟨2, 10, "mises.pdf", "t2", (9 : ℚ)⟩ (by decide)

/-- C8: when a nonzero content_id is supplied, every result carries that
content_id, and the document filter only narrows the owner scope — if
the document with that id does not belong to the requesting owner, the
search returns the empty "no content" success. -/
theorem content_filter_narrows_owner_scope
    (db : Db) (f : Scorer) (uid qt : String) (v : Int) (limit : Int)
    (msg : String) (results : List SearchResult)
    (hv : v ≠ 0)
    (hnd : (db.chunks.map (fun ch => ch.id)).Nodup)
    (huid : uid ≠ "") (hqt : qt ≠ "")
    (h : searchGet db f (some uid) (some qt) (some v) limit =
      .ok msg results) :
    (∀ r ∈ results, r.content_id = v) ∧
    ((∀ c ∈ db.contents, c.id = v → c.user_id ≠ uid) →
      searchGet db f (some uid) (some qt) (some v) limit =
        .ok "No content found for this user" []) := by
  constructor
  · intro r hr
    rw [searchGet_eq_core db f (some v) limit huid hqt] at h
    rcases searchCore_ok h with ⟨_, _, hres⟩ | ⟨_, _, _, hres⟩ |
      ⟨_, _, _, scids, rs, hm1, hm2, _, hres⟩
    · subst hres; cases hr
    · subst hres; cases hr
    · subst hres
      have hr2 := mem_sortByScoreDesc.1 hr
      rcases mem_mapOption hm2 hr2 with ⟨row, hrow, hass⟩
      simp only [assembleRow] at hass
      rcases Option.map_eq_some'.1 hass with ⟨s, _, hrs⟩
      have hrcid : row.content_id = r.content_id := by rw [← hrs]
      rcases mem_similarChunkRows hrow with ⟨ch, hch, hrid, hrc, hcids⟩
      rcases mem_mapOption hm1 hcids with ⟨emb, hemb, hget⟩
      rcases scid_provenance hget with ⟨ch2, hch2, hid2, _, hcont2⟩
      have hcheq : ch2 = ch := List.inj_on_of_nodup_map hnd hch2 hch hid2
      have hcv : ch.content_id ∈ contentIds db uid (some v) :=
        hcheq ▸ hcont2
      rw [← hrcid, hrc]
      exact mem_contentIds_some hv hcv
  · intro hmiss
    have hc : contentIds db uid (some v) = [] := by
      by_contra hne
      obtain ⟨i, hi⟩ := List.exists_mem_of_ne_nil _ hne
      have hiv : i = v := mem_contentIds_some hv hi
      rcases mem_contentIds hi with ⟨c, hcmem, hcid, hcuid⟩
      exact hmiss c hcmem (by rw [hcid, hiv]) hcuid
    rw [searchGet_eq_core db f (some v) limit huid hqt]
    simp only [searchCore]
    rw [if_pos (by simpa using hc)]

/-- Witness for C8: searching with content_id 10 yields results whose
content_id is 10. -/
theorem content_filter_narrows_owner_scope_witness :
    (⟨2, 10, "mises.pdf", "t2", (9 : ℚ)⟩ : SearchResult).content_id =
      (10 : Int) :=
  (content_filter_narrows_owner_scope dbA scorerA "51" "q" 10 2
      "Search completed successfully"
      [⟨2, 10, "mises.pdf", "t2", (9 : ℚ)⟩,
       ⟨1, 10, "mises.pdf", "t1", (5 : ℚ)⟩]
      (by decide) (by decide) (by decide) (by decide) (by decide)).1
    ⟨2, 10, "mises.pdf", "t2", (9 : ℚ)⟩ (by decide)

/-- C3: for a valid request whose scorer reply respects the requested
cap, the number of results is at most `limit` and at most the number of
candidates the scorer returned (which may be fewer than `limit`). -/
theorem results_length_le_limit_and_candidates
    (db : Db) (f : Scorer) (uid qt : String) (cid : Option Int) (limit : Int)
    (msg : String) (results : List SearchResult)
    (hnd : (db.chunks.map (fun ch => ch.id)).Nodup)
    (h : searchGet db f (some uid) (some qt) cid limit = .ok msg results)
    (hcap : (((f qt (embeddingIds db uid cid) limit).similar_embeddings.length :
      Int)) ≤ limit) :
    ((results.length : Int)) ≤ limit ∧
      results.length ≤
        (f qt (embeddingIds db uid cid) limit).similar_embeddings.length := by
  have h0 : (0 : Int) ≤ limit :=
    le_trans (Nat.cast_nonneg _) hcap
  rw [searchGet] at h
  split at h
  · exact absurd h (by simp)
  · simp only [Option.getD_some] at h
    rcases searchCore_ok h with ⟨_, _, hres⟩ | ⟨_, _, _, hres⟩ |
      ⟨_, _, _, scids, rs, hm1, hm2, _, hres⟩
    · subst hres; exact ⟨h0, Nat.zero_le _⟩
    · subst hres; exact ⟨h0, Nat.zero_le _⟩
    · subst hres
      have hlen : (sortByScoreDesc rs).length =
          (similarChunkRows db scids).length := by
        rw [length_sortByScoreDesc, length_mapOption hm2]
      have hscids : scids.length =
          (f qt (embeddingIds db uid cid) limit).similar_embeddings.length :=
        length_mapOption hm1
      have hle : (sortByScoreDesc rs).length ≤
          (f qt (embeddingIds db uid cid) limit).similar_embeddings.length := by
        rw [hlen, ← hscids]
        exact length_similarChunkRows_le hnd
      exact ⟨le_trans (by exact_mod_cast hle) hcap, hle⟩

/-- Witness for C3: two results, limit 2, two candidates. -/
theorem results_length_le_limit_and_candidates_witness :
    ((([⟨2, 10, "mises.pdf", "t2", (9 : ℚ)⟩,
        ⟨1, 10, "mises.pdf", "t1", (5 : ℚ)⟩] : List SearchResult).length :
      Int)) ≤ 2 ∧
    ([⟨2, 10, "mises.pdf", "t2", (9 : ℚ)⟩,
      ⟨1, 10, "mises.pdf", "t1", (5 : ℚ)⟩] : List SearchResult).length ≤
      (scorerA "q" (embeddingIds dbA "51" none) 2).similar_embeddings.length :=
  results_length_le_limit_and_candidates dbA scorerA "51" "q" none 2
    "Search completed successfully"
    [⟨2, 10, "mises.pdf", "t2", (9 : ℚ)⟩, ⟨1, 10, "mises.pdf", "t1", (5 : ℚ)⟩]
    (by decide) (by decide) (by decide)

/-- C2 counterexample: a successful search in which the scorer returned
2 ranked candidates (the same embedding id twice) but only 1 result is
assembled — the chunk lookup de-duplicates, so the output size does NOT
always equal the number of ranked candidates. -/
theorem results_count_ne_candidates_counterexample :
    searchGet dbA scorerDup (some "51") (some "q") none 5 =
      .ok "Search completed successfully"
        [⟨2, 10, "mises.pdf", "t2", (9 : ℚ)⟩] ∧
    (scorerDup "q" (embeddingIds dbA "51" none) 5).similar_embeddings.length
      = 2 ∧
    ([⟨2, 10, "mises.pdf", "t2", (9 : ℚ)⟩] : List SearchResult).length ≠ 2 :=
  ⟨by decide, by decide, by decide⟩

/-- C2 (amended): for every successful search in which the ranked
candidates returned by the scorer carry pairwise distinct embedding ids
(and chunk ids are unique, as the primary key guarantees), the number of
results equals the number of ranked candidates — no truncation; when an
embedding id repeats among the candidates, the duplicates collapse into
a single result. -/
theorem results_count_eq_candidates_when_distinct
    (db : Db) (f : Scorer) (uid qt : String) (cid : Option Int) (limit : Int)
    (results : List SearchResult)
    (hnd : (db.chunks.map (fun ch => ch.id)).Nodup)
    (h : searchGet db f (some uid) (some qt) cid limit =
      .ok "Search completed successfully" results)
    (hdistinct : ((f qt (embeddingIds db uid cid) limit).similar_embeddings.map
      (fun emb => emb.id)).Nodup) :
    results.length =
      (f qt (embeddingIds db uid cid) limit).similar_embeddings.length := by
  rw [searchGet] at h
  split at h
  · exact absurd h (by simp)
  · simp only [Option.getD_some] at h
    rcases searchCore_ok h with ⟨_, hmsg, _⟩ | ⟨_, _, hmsg, _⟩ |
      ⟨_, _, _, scids, rs, hm1, hm2, _, hres⟩
    · exact absurd hmsg (by decide)
    · exact absurd hmsg (by decide)
    · subst hres
      have hscids : scids.length =
          (f qt (embeddingIds db uid cid) limit).similar_embeddings.length :=
        length_mapOption hm1
      have hnodup_scids : scids.Nodup := by
        refine nodup_mapOption hm1 hdistinct ?_
        intro emb1 h1 emb2 h2 i hg1 hg2
        exact dictGet_buildDict_inj (nodup_fst_embeddingChunks hnd) hg1 hg2
      have hsub : scids ⊆ (similarChunkRows db scids).map
          (fun row => row.id) := by
        intro i hi
        rcases mem_mapOption hm1 hi with ⟨emb, hemb, hget⟩
        rcases scid_provenance hget with ⟨ch2, hch2, hid2, _, hcont2⟩
        rcases mem_contentIds hcont2 with ⟨c, hcmem, hcid, _⟩
        rcases similarChunkRows_mem_of hch2 (by rw [hid2]; exact hi)
          ⟨c, hcmem, hcid⟩ with ⟨row, hrow, hrid⟩
        exact List.mem_map.2 ⟨row, hrow, by rw [hrid, hid2]⟩
      have hge : scids.length ≤ (similarChunkRows db scids).length := by
        have := (List.subperm_of_subset hnodup_scids hsub).length_le
        simpa using this
      have hlen : (similarChunkRows db scids).length = scids.length :=
        le_antisymm (length_similarChunkRows_le hnd) hge
      rw [length_sortByScoreDesc, length_mapOption hm2, hlen, hscids]

/-- Witness for C2 (amended): two distinct candidates, two results. -/
theorem results_count_eq_candidates_when_distinct_witness :
    ([⟨2, 10, "mises.pdf", "t2", (9 : ℚ)⟩,
      ⟨1, 10, "mises.pdf", "t1", (5 : ℚ)⟩] : List SearchResult).length =
      (scorerA "q" (embeddingIds dbA "51" none) 2).similar_embeddings.length :=
  results_count_eq_candidates_when_distinct dbA scorerA "51" "q" none 2
    [⟨2, 10, "mises.pdf", "t2", (9 : ℚ)⟩, ⟨1, 10, "mises.pdf", "t1", (5 : ℚ)⟩]
    (by decide) (by decide) (by decide)

end GnosisQuery
